import Mathlib

/-!
# Verification of the AST codebase analyzer (src/src/tools/ASTCodebaseAnalyzer.ts)

A shallow embedding of the indexing / lexical-search engine of the
`ASTCodebaseAnalyzer` tool.  JavaScript strings are modelled as `List Char`
(`Str`), JavaScript string methods (`toLowerCase`, `includes`,
`split(/\s+/)`) are modelled below, Babel syntax trees are modelled as the
tree `BNode` whose node kinds carry exactly the information the analyzer's
visitors read, and the file system seen by `fs` is modelled by `FSEntry` /
`PathTarget`.  External capabilities (the Babel parser, the OpenAI
embedding endpoint, ChromaDB) are modelled at their interface boundary:
a file carries its parse outcome, embedding responses and vector-store
query responses are explicit parameters.
-/

/-- JavaScript strings, modelled as lists of characters. -/
abbrev Str := List Char

/-- Characters of a Lean string literal, used to write `Str` constants. -/
def strL (s : String) : Str := s.data

/-- Decimal rendering of a number, as in a JS template literal `${n}`. -/
def natStr (n : Nat) : Str := (Nat.repr n).data

/-- Rendering of a similarity score (the model's stand-in for
JavaScript's `toFixed(1)`; only used inside formatted output lines, which
no claim inspects numerically). -/
def ratStr (q : Rat) : Str := (reprStr q).data

/-- JS `String.prototype.toLowerCase`, character-wise. -/
def toLowerStr (s : Str) : Str := s.map Char.toLower

/-- JS `hay.includes(needle)`: substring containment. -/
def jsIncludes (hay needle : Str) : Bool := decide (needle <:+: hay)

/-- JS `s.split(/\s+/)`: split at maximal whitespace runs.  A leading or
trailing whitespace run produces an empty piece, and the empty string
yields `[""]`, exactly as in JavaScript; the result is never `[]`. -/
def splitWS : Str → List Str
  | [] => [[]]
  | c :: rest =>
    if c.isWhitespace then
      match rest with
      | r :: _ =>
        if r.isWhitespace then splitWS rest
        else [] :: splitWS rest
      | [] => [] :: splitWS rest
    else
      match splitWS rest with
      | [] => [[c]]
      | t :: ts => (c :: t) :: ts

theorem splitWS_ne_nil (l : Str) : splitWS l ≠ [] := by
  match l with
  | [] => simp [splitWS]
  | c :: rest =>
    by_cases hws : c.isWhitespace
    · match rest with
      | [] => simp [splitWS, hws]
      | r :: rest' =>
        by_cases hrws : r.isWhitespace
        · have hdef : splitWS (c :: r :: rest') = splitWS (r :: rest') := by
            rw [splitWS.eq_def]; simp [hws, hrws]
          rw [hdef]
          exact splitWS_ne_nil (r :: rest')
        · have hdef : splitWS (c :: r :: rest') = [] :: splitWS (r :: rest') := by
            rw [splitWS.eq_def]; simp [hws, hrws]
          simp [hdef]
    · have hdef : splitWS (c :: rest) =
          match splitWS rest with
          | [] => [[c]]
          | t :: ts => (c :: t) :: ts := by
        rw [splitWS.eq_def]
        simp [hws]
      rw [hdef]
      split <;> simp

/-- Every piece produced by `splitWS` occurs inside the original string,
the first piece is a prefix of it, and a string opening with whitespace
has the empty string as its first piece. -/
theorem splitWS_parts :
    ∀ l : Str, ((splitWS l).headI <+: l ∧ ∀ t ∈ splitWS l, t <:+: l) ∧
      (∀ c rest, l = c :: rest → c.isWhitespace = true → (splitWS l).headI = []) := by
  intro l
  induction l with
  | nil => simp [splitWS]
  | cons c rest ih =>
    by_cases hws : c.isWhitespace
    · match rest with
      | [] =>
        constructor
        · constructor
          · simp [splitWS, hws]
          · intro t ht
            simp [splitWS, hws] at ht
            simp [ht]
        · intro c' rest' heq hws'
          simp [splitWS, hws]
      | r :: rest' =>
        by_cases hrws : r.isWhitespace
        · have hdef : splitWS (c :: r :: rest') = splitWS (r :: rest') := by
            rw [splitWS.eq_def]; simp [hws, hrws]
          have hhead : (splitWS (r :: rest')).headI = [] := ih.2 r rest' rfl hrws
          constructor
          · constructor
            · rw [hdef, hhead]; exact List.nil_prefix
            · intro t ht
              rw [hdef] at ht
              exact List.infix_cons (ih.1.2 t ht)
          · intro c'' rest'' _ _
            rw [hdef]; exact hhead
        · have hdef : splitWS (c :: r :: rest') = [] :: splitWS (r :: rest') := by
            rw [splitWS.eq_def]; simp [hws, hrws]
          constructor
          · constructor
            · rw [hdef]; simp
            · intro t ht
              rw [hdef] at ht
              rcases List.mem_cons.mp ht with h | h
              · subst h; exact List.nil_infix
              · exact List.infix_cons (ih.1.2 t h)
          · intro c'' rest'' _ _
            rw [hdef]; simp
    · obtain ⟨t₀, ts, hcons⟩ := List.exists_cons_of_ne_nil (splitWS_ne_nil rest)
      have hdef : splitWS (c :: rest) = (c :: t₀) :: ts := by
        rw [splitWS.eq_def]; simp [hws, hcons]
      have hpre : t₀ <+: rest := by
        have := ih.1.1
        rw [hcons] at this
        simpa using this
      have hpre' : (c :: t₀) <+: (c :: rest) := by
        obtain ⟨tl, htl⟩ := hpre
        exact ⟨tl, by simp [htl]⟩
      constructor
      · constructor
        · rw [hdef]
          simpa using hpre'
        · intro t ht
          rw [hdef] at ht
          rcases List.mem_cons.mp ht with h | h
          · subst h
            exact hpre'.isInfix
          · have h1 : t <:+: rest := by
              apply ih.1.2
              rw [hcons]
              exact List.mem_cons_of_mem _ h
            exact List.infix_cons h1
      · intro c'' rest'' heq hws'
        rw [List.cons.injEq] at heq
        rw [← heq.1] at hws'
        exact absurd hws' hws

theorem splitWS_mem_sub {l t : Str} (h : t ∈ splitWS l) : t <:+: l :=
  (splitWS_parts l).1.2 t h

/-- Order-preserving deduplication keeping first occurrences, the
behaviour of `[...new Set(xs)]` in JavaScript. -/
def dedupFirst (l : List Str) : List Str :=
  l.foldl (fun acc x => if x ∈ acc then acc else acc ++ [x]) []

/-! ## Data model (interfaces `CodeChunk`, `SemanticSearchResult`) -/

/-- The `type` field of a `CodeChunk`
(`'function' | 'class' | 'interface' | 'import' | 'comment' | 'variable'`);
`class` and `variable` are Lean keywords, hence the `T` suffix. -/
inductive ChunkType where
  | functionT | classT | interfaceT | importT | commentT | variableT
deriving DecidableEq, Repr

/-- The `code_type` input of the tool
(`'function' | 'class' | 'interface' | 'all'`); `typed t` is the string
that compares equal (`===`) to chunks of type `t`. -/
inductive CodeTypeQ where
  | all
  | typed (t : ChunkType)
deriving DecidableEq, Repr

/-- The `interface CodeChunk` of the analyzer. -/
structure CodeChunk where
  id : Str
  content : Str
  type : ChunkType
  name : Str
  file : Str
  line : Nat
  context : Str
  dependencies : List Str
  embedding : Option (List Rat)
deriving DecidableEq, Repr

/-- The `interface SemanticSearchResult` of the analyzer. -/
structure SemanticSearchResult where
  chunk : CodeChunk
  similarity : Rat
  context : Str
deriving DecidableEq, Repr

/-- The `chunk.type === codeType` where `codeType` may be `'all'`. -/
def typeMatches (ct : CodeTypeQ) (t : ChunkType) : Bool :=
  match ct with
  | .all => true
  | .typed k => decide (t = k)

/-! ## Lexical similarity and the in-memory (lexical fallback) search -/

/-- The text `` `${chunk.name} ${chunk.content} ${chunk.context}` ``
lowercased, as `calculateTextSimilarity` builds it. -/
def chunkTextOf (c : CodeChunk) : Str :=
  toLowerStr (c.name ++ [' '] ++ c.content ++ [' '] ++ c.context)

/-- The `calculateTextSimilarity` (lines 721-726): the fraction of
whitespace-split, lowercased query terms occurring in the chunk's
name+content+context. -/
def calculateTextSimilarity (query : Str) (chunk : CodeChunk) : Rat :=
  let queryWords := splitWS (toLowerStr query)
  let chunkText := chunkTextOf chunk
  let matchCount := (queryWords.filter (fun word => jsIncludes chunkText word)).length
  (matchCount : Rat) / (queryWords.length : Rat)

/-- The `contentMatch` predicate of `performInMemorySearch` (lines
704-706): the whole lowercased query is a substring of the chunk's
content, name, or context. -/
def contentMatch (queryLower : Str) (c : CodeChunk) : Bool :=
  jsIncludes (toLowerStr c.content) queryLower ||
  jsIncludes (toLowerStr c.name) queryLower ||
  jsIncludes (toLowerStr c.context) queryLower

/-- The `filtered` list of `performInMemorySearch` (lines 702-708). -/
def inMemoryCandidates (chunks : List CodeChunk) (query : Str) (ct : CodeTypeQ) :
    List CodeChunk :=
  let queryLower := toLowerStr query
  chunks.filter (fun c => typeMatches ct c.type && contentMatch queryLower c)

/-- The `results` list of `performInMemorySearch` (lines 710-716):
candidates truncated by `slice(0, maxResults)` and scored. -/
def inMemoryScored (chunks : List CodeChunk) (query : Str) (maxResults : Nat)
    (ct : CodeTypeQ) : List SemanticSearchResult :=
  ((inMemoryCandidates chunks query ct).take maxResults).map
    (fun c => ⟨c, calculateTextSimilarity query c, c.context⟩)

/-- The entries that `formatInMemorySearchResults` (lines 748-762)
actually prints: results whose similarity reaches the threshold.  This is
"the result list returned by search" in lexical mode. -/
def inMemoryShown (chunks : List CodeChunk) (query : Str) (threshold : Rat)
    (maxResults : Nat) (ct : CodeTypeQ) : List SemanticSearchResult :=
  (inMemoryScored chunks query maxResults ct).filter
    (fun r => decide (threshold ≤ r.similarity))

/-- The output lines of one shown entry (lines 753-757). -/
def inMemoryEntryLines (r : SemanticSearchResult) : List Str :=
  [ strL "📄 " ++ r.chunk.name ++ strL " (" ++ strL (reprStr r.chunk.type) ++ strL ")"
  , strL "   File: " ++ r.chunk.file ++ strL ":" ++ natStr r.chunk.line
  , strL "   Similarity: " ++ ratStr (r.similarity * 100) ++ strL "%"
  , strL "   Content: " ++ r.chunk.content.take 200 ++ strL "..."
  , strL "" ]

/-- The `formatInMemorySearchResults` (lines 748-762), as the list of output
lines (`lines.join('\n')` is left unapplied). -/
def formatInMemorySearchResults (results : List SemanticSearchResult)
    (threshold : Rat) : List Str :=
  strL "🔍 In-Memory Search Results:" :: strL "" ::
    results.flatMap (fun r =>
      if threshold ≤ r.similarity then inMemoryEntryLines r else [])

/-- The `performInMemorySearch` (lines 695-719), as the list of output lines. -/
def performInMemorySearch (chunks : List CodeChunk) (query : Str)
    (threshold : Rat) (maxResults : Nat) (ct : CodeTypeQ) : List Str :=
  formatInMemorySearchResults (inMemoryScored chunks query maxResults ct) threshold

/-! ## Babel syntax trees

`BNode` models the parser output at the interface the analyzer reads:
each node carries its Babel `type` (plus the few fields the visitors
access, inlined into the kind), its location line, its source slice
(`content.slice(node.start, node.end)`, precomputed as `src`), and its
children in source order.  Node types none of the visitors match are
collapsed into `otherNode`. -/

/-- Babel node kinds, with the fields the analyzer's visitors read. -/
inductive NodeKind where
  | program
  | functionDeclaration (idName : Option Str) (params : List Str)
  | arrowFunctionExpression (params : List Str)
  | classDeclaration (idName : Option Str)
  | tsInterfaceDeclaration (idName : Option Str)
  | importDeclaration (source : Option Str)
  | variableDeclaration
  | variableDeclarator (idName : Option Str)
  | assignmentExpression (leftName : Option Str)
  | callExpression (calleeName : Option Str) (calleePropertyName : Option Str)
  | identifier (name : Str) (isBindingIdent : Bool)
  | ifStatement
  | whileStatement
  | forStatement
  | switchCase
  | catchClause
  | conditionalExpression
  | logicalExpression (op : Str)
  | otherNode
deriving DecidableEq, Repr

/-- Location line and source slice of a node. -/
structure NodeInfo where
  line : Nat
  src : Str
deriving DecidableEq, Repr

/-- A Babel syntax tree. -/
inductive BNode where
  | node (kind : NodeKind) (info : NodeInfo) (children : List BNode)

/-- The node's Babel `type` (with inlined fields). -/
def BNode.kind : BNode → NodeKind
  | .node k _ _ => k

/-- The node's children, in source order. -/
def BNode.children : BNode → List BNode
  | .node _ _ cs => cs

/-! ## `calculateASTComplexity` (lines 536-555) -/

/-- Whether a visitor of `calculateASTComplexity` increments the counter
at a node of this kind: `IfStatement`, `WhileStatement`, `ForStatement`,
`SwitchCase`, `CatchClause`, `ConditionalExpression`, and
`LogicalExpression` with operator `&&` or `||`. -/
def isComplexityNode (k : NodeKind) : Bool :=
  match k with
  | .ifStatement | .whileStatement | .forStatement
  | .switchCase | .catchClause | .conditionalExpression => true
  | .logicalExpression op => op == strL "&&" || op == strL "||"
  | _ => false

mutual
/-- One visitor step of `path.traverse` in `calculateASTComplexity`:
thread the counter through this node and its subtree. -/
def complexityVisit : BNode → Nat → Nat
  | .node k _ cs, acc =>
    complexityVisitList cs (if isComplexityNode k then acc + 1 else acc)
/-- Thread the complexity counter through a list of subtrees. -/
def complexityVisitList : List BNode → Nat → Nat
  | [], acc => acc
  | c :: cs, acc => complexityVisitList cs (complexityVisit c acc)
end

/-- The `calculateASTComplexity` (lines 536-555): counter starts at 1 and
`path.traverse` visits the proper descendants of the node. -/
def calculateASTComplexity : BNode → Nat
  | .node _ _ cs => complexityVisitList cs 1

mutual
/-- All proper descendants of a node, in visit order. -/
def descendants : BNode → List BNode
  | .node _ _ cs => descendantsList cs
/-- All nodes of a list of subtrees (each root included), in visit order. -/
def descendantsList : List BNode → List BNode
  | [] => []
  | c :: cs => (c :: descendants c) ++ descendantsList cs
end

/-! ## `extractDependencies` (lines 512-534) -/

/-- What one node contributes to `extractDependencies`: the callee name
(or callee property name) of a `CallExpression`, and the name of any
non-binding `Identifier`. -/
def depContribution (k : NodeKind) : List Str :=
  match k with
  | .callExpression calleeName calleePropertyName =>
    match calleeName with
    | some n => [n]
    | none =>
      match calleePropertyName with
      | some p => [p]
      | none => []
  | .identifier nm isBindingIdent => if isBindingIdent then [] else [nm]
  | _ => []

mutual
/-- Dependency names collected over a whole subtree (root included). -/
def depsNode : BNode → List Str
  | .node k _ cs => depContribution k ++ depsList cs
/-- Dependency names collected over a list of subtrees. -/
def depsList : List BNode → List Str
  | [] => []
  | c :: cs => depsNode c ++ depsList cs
end

/-- The `extractDependencies` (lines 512-534): `path.traverse` over the
node's proper descendants, deduplicated via `[...new Set(...)]`. -/
def extractDependencies (n : BNode) : List Str :=
  dedupFirst (depsList n.children)

/-! ## `extractContext` (lines 506-510) -/

/-- The `extractContext(lines, lineNumber, contextLines)`: the surrounding
window `lines.slice(max(0, line-contextLines-1), min(len, line+contextLines))`
joined with newlines.  Natural subtraction models `Math.max(0, _)`. -/
def extractContext (lines : List Str) (lineNumber : Nat) (contextLines : Nat) : Str :=
  let start := lineNumber - contextLines - 1
  let stop := min lines.length (lineNumber + contextLines)
  List.intercalate (strL "\n") ((lines.drop start).take (stop - start))

/-! ## Chunk extraction (`extractASTNodes`, lines 275-485, chunk part)

The analyzer pushes a `CodeChunk` for every matched node via
`addCodeChunk` (lines 491-497), which derives the `id`.  The model first
collects the pushed records (`ChunkData`) in visit order and applies
`addCodeChunk` to each, which is the same list of chunks. -/

/-- A chunk as passed to `addCodeChunk`, before the `id` is derived
(`Omit<CodeChunk, 'id'>`; `embedding` is never passed). -/
structure ChunkData where
  content : Str
  type : ChunkType
  name : Str
  file : Str
  line : Nat
  context : Str
  dependencies : List Str
deriving DecidableEq, Repr

/-- The `addCodeChunk` (lines 491-497):
`` id = `${chunk.file}:${chunk.line}:${chunk.name}` ``, `embedding` unset. -/
def addCodeChunk (c : ChunkData) : CodeChunk :=
  { id := c.file ++ strL ":" ++ natStr c.line ++ strL ":" ++ c.name
    content := c.content
    type := c.type
    name := c.name
    file := c.file
    line := c.line
    context := c.context
    dependencies := c.dependencies
    embedding := none }

/-- The chunk records one visited node pushes (the `addCodeChunk` calls
in the visitors of `extractASTNodes`).  `parentKind` is `path.parent`,
used by the `ArrowFunctionExpression` visitor's naming rule. -/
def visitChunkData (file : Str) (lines : List Str) (parentKind : Option NodeKind)
    (k : NodeKind) (info : NodeInfo) (cs : List BNode) : List ChunkData :=
  match k with
  | .functionDeclaration (some nm) _ =>
    [⟨info.src, .functionT, nm, file, info.line,
      extractContext lines info.line 3, dedupFirst (depsList cs)⟩]
  | .arrowFunctionExpression _ =>
    let nm :=
      match parentKind with
      | some (.variableDeclarator (some n)) => n
      | some (.assignmentExpression (some n)) => n
      | _ => strL "anonymous"
    [⟨info.src, .functionT, nm, file, info.line,
      extractContext lines info.line 3, dedupFirst (depsList cs)⟩]
  | .classDeclaration (some nm) =>
    [⟨info.src, .classT, nm, file, info.line,
      extractContext lines info.line 3, dedupFirst (depsList cs)⟩]
  | .tsInterfaceDeclaration (some nm) =>
    [⟨info.src, .interfaceT, nm, file, info.line,
      extractContext lines info.line 3, dedupFirst (depsList cs)⟩]
  | .importDeclaration source =>
    let nm := source.getD (strL "unknown")
    [⟨info.src, .importT, nm, file, info.line,
      extractContext lines info.line 3, [nm]⟩]
  | .variableDeclaration =>
    cs.flatMap (fun d =>
      match d.kind with
      | .variableDeclarator (some nm) =>
        [⟨info.src, .variableT, nm, file, info.line,
          extractContext lines info.line 3, dedupFirst (depsList cs)⟩]
      | _ => [])
  | _ => []

mutual
/-- Depth-first traversal of `extractASTNodes` collecting the pushed
chunk records; children are visited with this node as parent. -/
def extractNodeData (file : Str) (lines : List Str) (parentKind : Option NodeKind) :
    BNode → List ChunkData
  | .node k info cs =>
    visitChunkData file lines parentKind k info cs ++
      extractListData file lines (some k) cs
/-- Traversal over a list of sibling subtrees. -/
def extractListData (file : Str) (lines : List Str) (parentKind : Option NodeKind) :
    List BNode → List ChunkData
  | [] => []
  | c :: cs =>
    extractNodeData file lines parentKind c ++ extractListData file lines parentKind cs
end

/-! ## Files, directories, and per-file parsing (lines 209-273) -/

/-- A source file as the analyzer sees it: its path relative to the
analyzed root (`path.relative`), its lowercased-comparable extension
(`path.extname`), its content length, its content split at newlines, and
the outcome of handing its text to the external Babel parser
(`.error` models a thrown parse error, caught at lines 270-272). -/
structure SourceFile where
  relPath : Str
  ext : Str
  contentLength : Nat
  lines : List Str
  parsed : Except Str BNode

/-- A directory tree entry, as enumerated by `fs.readdirSync`. -/
inductive FSEntry where
  | file (f : SourceFile)
  | dir (dname : Str) (entries : List FSEntry)

/-- The `supportedExtensions` (line 230). -/
def supportedExtensions : List Str :=
  [strL ".js", strL ".ts", strL ".jsx", strL ".tsx", strL ".mjs"]

/-- The `skipDirs` (line 218). -/
def skipDirs : List Str :=
  [strL "node_modules", strL ".git", strL "dist", strL "build",
   strL ".next", strL "coverage"]

/-- The chunk records contributed by one file
(`parseFileAST` + `parseJavaScriptAST`, lines 228-273): unsupported
extensions and very large files are skipped, a parse failure is caught
(logged) and contributes nothing, otherwise the tree is traversed. -/
def fileChunkData (f : SourceFile) : List ChunkData :=
  if (toLowerStr f.ext) ∉ supportedExtensions then []
  else if 100000 < f.contentLength then []
  else
    match f.parsed with
    | .error _ => []
    | .ok ast => extractNodeData f.relPath f.lines none ast

/-- The `parseFileAST` as the chunks it pushes. -/
def parseFileAST (f : SourceFile) : List CodeChunk :=
  (fileChunkData f).map addCodeChunk

mutual
/-- What one directory entry contributes to `parseDirectoryAST` (lines
209-226) at recursion depth `d`: files are parsed, non-skipped
directories are descended into (the recursive call's own `depth > 10`
entry guard is checked, inlined, before descending). -/
def entryChunkData : FSEntry → Nat → List ChunkData
  | .file f, _ => fileChunkData f
  | .dir nm sub, d =>
    if nm ∈ skipDirs then []
    else if d + 1 > 10 then [] else entriesChunkData sub (d + 1)
/-- The fold of `parseDirectoryAST` over one directory's entries. -/
def entriesChunkData : List FSEntry → Nat → List ChunkData
  | [], _ => []
  | e :: rest, d => entryChunkData e d ++ entriesChunkData rest d
end

/-- The `parseDirectoryAST` (lines 209-226) at the record level: stop beyond
depth 10, then fold over the entries. -/
def dirChunkData (entries : List FSEntry) (depth : Nat) : List ChunkData :=
  if depth > 10 then [] else entriesChunkData entries depth

/-- The `parseDirectoryAST`: the chunks accumulated into `this.codeChunks`
while walking a directory. -/
def parseDirectoryAST (entries : List FSEntry) (depth : Nat) : List CodeChunk :=
  (dirChunkData entries depth).map addCodeChunk

/-! ## Embedding pipeline (`generateEmbeddings`, lines 565-597) -/

/-- The `createEmbeddingText` (lines 599-608). -/
def createEmbeddingText (c : CodeChunk) : Str :=
  List.intercalate (strL "\n")
    [ strL "Type: " ++ strL (reprStr c.type)
    , strL "Name: " ++ c.name
    , strL "File: " ++ c.file
    , strL "Content: " ++ c.content
    , strL "Context: " ++ c.context
    , strL "Dependencies: " ++ List.intercalate (strL ", ") c.dependencies ]

/-- The `generateEmbeddings` (lines 565-597): without an API key the
pipeline returns immediately; with one, each chunk's embedding request is
issued independently (`embedResp` is the external endpoint; `none` models
a failed request, which is caught and leaves the chunk unchanged). -/
def generateEmbeddings (apiKey : Option Str) (embedResp : Str → Option (List Rat))
    (chunks : List CodeChunk) : List CodeChunk :=
  match apiKey with
  | none => chunks
  | some _ =>
    chunks.map (fun c =>
      match embedResp (createEmbeddingText c) with
      | some v => { c with embedding := some v }
      | none => c)

/-! ## `analyzeCodebaseAST` (lines 190-207) -/

/-- What `fs.existsSync` / `fs.statSync().isDirectory()` report for the
target path, together with the directory contents when it is one. -/
inductive PathTarget where
  | missing
  | notDirectory
  | directory (entries : List FSEntry)

/-- The analyzer's mutable state touched by `analyzeCodebaseAST`
(`this.currentPath`, `this.codeChunks`; `this.astNodes` mirrors the chunk
list and is read by no claim, so it is not carried). -/
structure AnalyzerState where
  currentPath : Option Str
  codeChunks : List CodeChunk

/-- The `analyzeCodebaseAST` (lines 190-207), state-passing: the two
path-validation throws happen before any state is mutated; on a valid
directory the previous state is discarded wholesale and replaced by the
freshly parsed and (optionally) embedded chunk set. -/
def analyzeCodebaseAST (s : AnalyzerState) (targetPath : Str) (tgt : PathTarget)
    (apiKey : Option Str) (embedResp : Str → Option (List Rat)) :
    Except Str Unit × AnalyzerState :=
  match tgt with
  | .missing => (.error (strL "Path does not exist: " ++ targetPath), s)
  | .notDirectory => (.error (strL "Path is not a directory: " ++ targetPath), s)
  | .directory entries =>
    let chunks := generateEmbeddings apiKey embedResp (parseDirectoryAST entries 0)
    (.ok (), { currentPath := some targetPath, codeChunks := chunks })

/-! ## Tool level: `_run` (lines 89-162) with its backend calls

To settle the claims about which external calls an invocation makes, the
model records an explicit trace of backend effects:
`vectorStoreInit` is the `getOrCreateCollection` call of
`initializeVectorDatabase`, `embedRequest` is one per-chunk embedding
request of `generateEmbeddings`, `vectorStoreAdd` is the `collection.add`
of `storeInVectorDatabase`, `queryEmbedRequest` / `vectorStoreQuery` are
the query-side calls of `performSemanticSearch`, and `llmRequest` is a
`generateText` call. -/

/-- One backend call made during `_run`. -/
inductive Effect where
  | vectorStoreInit
  | embedRequest
  | vectorStoreAdd
  | queryEmbedRequest
  | vectorStoreQuery
  | llmRequest
deriving DecidableEq, Repr

/-- The `operation` input enum. -/
inductive Operation where
  | analyze_ast | semantic_search | explain_semantic | find_similar
  | extract_patterns | dependency_graph | code_embeddings | intelligent_query
deriving DecidableEq, Repr

/-- The tool input (`inputSchema`, lines 74-87). -/
structure RunInput where
  operation : Operation
  path : Option Str
  query : Option Str
  similarity_threshold : Option Rat
  max_results : Option Nat
  code_type : Option CodeTypeQ
  include_context : Option Bool

/-- The tool's instance state, plus the availability of ChromaDB at
initialization time (`chromaReachable`: whether `getOrCreateCollection`
succeeds; on failure `vectorDB.isInitialized` stays false forever). -/
structure ToolState where
  chromaClientSet : Bool
  chromaReachable : Bool
  vectorInitialized : Bool
  currentPath : Option Str
  codeChunks : List CodeChunk
  apiKey : Option Str

/-- One row of a ChromaDB `query` response, as `formatSearchResults`
reads it. -/
structure VRow where
  rname : Str
  rtype : Str
  rfile : Str
  rline : Nat
  document : Str
  distance : Rat
deriving DecidableEq, Repr

/-- The `formatSearchResults` (lines 728-746): vector-backend results with
`similarity = 1 - distance`, threshold-filtered while printing. -/
def formatSearchResults (rows : List VRow) (threshold : Rat) : List Str :=
  strL "🔍 Semantic Search Results:" :: strL "" ::
    rows.flatMap (fun r =>
      let similarity := 1 - r.distance
      if threshold ≤ similarity then
        [ strL "📄 " ++ r.rname ++ strL " (" ++ r.rtype ++ strL ")"
        , strL "   File: " ++ r.rfile ++ strL ":" ++ natStr r.rline
        , strL "   Similarity: " ++ ratStr (similarity * 100) ++ strL "%"
        , strL "   Content: " ++ r.document.take 200 ++ strL "..."
        , strL "" ]
      else [])

/-- The `performSemanticSearch` (lines 651-693) with its effect trace.
Without an initialized vector store it goes straight to the in-memory
search; otherwise it always issues the query-embedding fetch (with a
missing API key or a failed fetch, `qEmbedOk = false`, the response is
not ok and the catch falls back to in-memory search), then the ChromaDB
query (`vecRows = none` models its failure, also caught). -/
def performSemanticSearchT (st : ToolState) (qEmbedOk : Bool)
    (vecRows : Option (List VRow)) (query : Str) (threshold : Rat)
    (maxResults : Nat) (ct : CodeTypeQ) : List Effect × List Str :=
  if st.vectorInitialized then
    if st.apiKey.isNone || !qEmbedOk then
      ([.queryEmbedRequest],
       performInMemorySearch st.codeChunks query threshold maxResults ct)
    else
      match vecRows with
      | none =>
        ([.queryEmbedRequest, .vectorStoreQuery],
         performInMemorySearch st.codeChunks query threshold maxResults ct)
      | some rows =>
        ([.queryEmbedRequest, .vectorStoreQuery], formatSearchResults rows threshold)
  else
    ([], performInMemorySearch st.codeChunks query threshold maxResults ct)

/-- What `_run` produces: an early `Error: ...` string, search output
lines, some other formatted report (summaries, explanations — inspected
by no claim), or a thrown error (the outer catch rethrows). -/
inductive RunOutcome where
  | errorMsg (msg : Str)
  | searchLines (lines : List Str)
  | otherResult
  | thrown (msg : Str)
deriving DecidableEq, Repr

/-- JS truthiness of an optional string input: `undefined` and `""` are
falsy (`!query`, `targetPath && ...`). -/
def truthyStr (o : Option Str) : Option Str :=
  match o with
  | none => none
  | some s => if s = [] then none else some s

/-- The `switch (operation)` body of `_run` (lines 114-158), given the
state after initialization and any re-analysis.  Fixed thresholds/counts:
`explain_semantic` searches at (0.6, 5), `intelligent_query` at
(0.5, 10); `find_similar` and both explanation operations search with
code type `'all'`. -/
def runOperation (st : ToolState) (qEmbedOk : Bool) (vecRows : Option (List VRow))
    (inp : RunInput) : List Effect × RunOutcome :=
  let threshold := inp.similarity_threshold.getD (7 / 10 : Rat)
  let maxResults := inp.max_results.getD 10
  let ct := inp.code_type.getD CodeTypeQ.all
  let q := (truthyStr inp.query).getD []
  match inp.operation with
  | .analyze_ast =>
    match truthyStr inp.path with
    | none => ([], .errorMsg (strL "Error: Path is required for AST analysis"))
    | some _ => ([], .otherResult)
  | .semantic_search =>
    match truthyStr inp.query with
    | none => ([], .errorMsg (strL "Error: Query is required for semantic search"))
    | some _ =>
      let (es, ls) := performSemanticSearchT st qEmbedOk vecRows q threshold maxResults ct
      (es, .searchLines ls)
  | .explain_semantic =>
    match truthyStr inp.query with
    | none => ([], .errorMsg (strL "Error: Question is required for semantic explanation"))
    | some _ =>
      let (es, _) := performSemanticSearchT st qEmbedOk vecRows q (3 / 5) 5 CodeTypeQ.all
      (es ++ (match st.apiKey with | none => [] | some _ => [.llmRequest]), .otherResult)
  | .find_similar =>
    match truthyStr inp.query with
    | none => ([], .errorMsg (strL "Error: Code snippet is required to find similar code"))
    | some _ =>
      let (es, ls) := performSemanticSearchT st qEmbedOk vecRows q threshold maxResults CodeTypeQ.all
      (es, .searchLines ls)
  | .extract_patterns => ([], .otherResult)
  | .dependency_graph => ([], .otherResult)
  | .code_embeddings => ([], .otherResult)
  | .intelligent_query =>
    match truthyStr inp.query with
    | none => ([], .errorMsg (strL "Error: Query is required for intelligent analysis"))
    | some _ =>
      let (es, _) := performSemanticSearchT st qEmbedOk vecRows q (1 / 2) 10 CodeTypeQ.all
      (es ++ (match st.apiKey with | none => [] | some _ => [.llmRequest]), .otherResult)

/-- The part of `_run` (lines 109-158) after ChromaDB initialization,
run in state `s1` with the initialization's effects `e0` already
recorded: re-analyze when a (truthy) path is supplied and the operation
is `analyze_ast` or the path differs from the current one, then
dispatch.  `targetOf` is the file system; a path-validation throw
escapes through the outer catch as `thrown` before the operation's own
query check runs. -/
def runToolCore (e0 : List Effect) (s1 : ToolState) (targetOf : Str → PathTarget)
    (embedResp : Str → Option (List Rat)) (qEmbedOk : Bool)
    (vecRows : Option (List VRow)) (inp : RunInput) : List Effect × RunOutcome :=
  match truthyStr inp.path with
  | some p =>
    if inp.operation = Operation.analyze_ast ∨ s1.currentPath ≠ some p then
      match targetOf p with
      | .missing => (e0, .thrown (strL "Path does not exist: " ++ p))
      | .notDirectory => (e0, .thrown (strL "Path is not a directory: " ++ p))
      | .directory entries =>
        let raw := parseDirectoryAST entries 0
        let chunks := generateEmbeddings s1.apiKey embedResp raw
        let eIdx :=
          (match s1.apiKey with
           | none => ([] : List Effect)
           | some _ => raw.map (fun _ => Effect.embedRequest)) ++
          (if s1.vectorInitialized ∧
              0 < (chunks.filter (fun c => c.embedding.isSome)).length
           then [Effect.vectorStoreAdd] else [])
        let s2 := { s1 with currentPath := some p, codeChunks := chunks }
        (e0 ++ eIdx ++ (runOperation s2 qEmbedOk vecRows inp).1,
         (runOperation s2 qEmbedOk vecRows inp).2)
    else
      (e0 ++ (runOperation s1 qEmbedOk vecRows inp).1,
       (runOperation s1 qEmbedOk vecRows inp).2)
  | none =>
    (e0 ++ (runOperation s1 qEmbedOk vecRows inp).1,
     (runOperation s1 qEmbedOk vecRows inp).2)

/-- The `_run` (lines 89-162): initialize ChromaDB on first use — the
`getOrCreateCollection` vector-store call; on its failure
(`chromaReachable = false`) the tool falls back to in-memory search for
the process lifetime — then proceed with `runToolCore`. -/
def runTool (s : ToolState) (targetOf : Str → PathTarget)
    (embedResp : Str → Option (List Rat)) (qEmbedOk : Bool)
    (vecRows : Option (List VRow)) (inp : RunInput) : List Effect × RunOutcome :=
  if s.chromaClientSet then
    runToolCore [] s targetOf embedResp qEmbedOk vecRows inp
  else
    runToolCore [Effect.vectorStoreInit]
      { s with chromaClientSet := true, vectorInitialized := s.chromaReachable }
      targetOf embedResp qEmbedOk vecRows inp

/-! ## A concrete one-function codebase

The spec's scenario file: a directory holding one file `add.js` whose
content is `function add(a, b) { return a + b; }`, with the Babel tree
that parser produces for it (block/return/binary nodes are kinds no
visitor matches). -/

/-- The file text of the scenario file. -/
def addSrc : Str := strL "function add(a, b) \x7b return a + b; \x7d"

/-- The Babel `FunctionDeclaration` node for `add`: its `id`, its two
binding params, and its body block with the two reference identifiers. -/
def addFuncNode : BNode :=
  .node (.functionDeclaration (some (strL "add")) [strL "a", strL "b"]) ⟨1, addSrc⟩
    [ .node (.identifier (strL "add") true) ⟨1, strL "add"⟩ []
    , .node (.identifier (strL "a") true) ⟨1, strL "a"⟩ []
    , .node (.identifier (strL "b") true) ⟨1, strL "b"⟩ []
    , .node .otherNode ⟨1, strL "\x7b return a + b; \x7d"⟩
        [ .node .otherNode ⟨1, strL "return a + b;"⟩
            [ .node .otherNode ⟨1, strL "a + b"⟩
                [ .node (.identifier (strL "a") false) ⟨1, strL "a"⟩ []
                , .node (.identifier (strL "b") false) ⟨1, strL "b"⟩ [] ] ] ] ]

/-- The parsed program for the scenario file. -/
def addProgram : BNode := .node .program ⟨1, addSrc⟩ [addFuncNode]

/-- The scenario file `add.js`. -/
def addFile : SourceFile :=
  { relPath := strL "add.js", ext := strL ".js", contentLength := addSrc.length
  , lines := [addSrc], parsed := .ok addProgram }

/-- The single chunk the analyzer extracts from `add.js`. -/
def addChunk : CodeChunk :=
  addCodeChunk ⟨addSrc, .functionT, strL "add", strL "add.js", 1, addSrc,
    [strL "a", strL "b"]⟩

/-- The `add.js` yields exactly its one function chunk. -/
theorem parseFileAST_addFile : parseFileAST addFile = [addChunk] := by decide

/-! ## Key lexical-search lemmas -/

theorem jsIncludes_eq_true {hay needle : Str} :
    jsIncludes hay needle = true ↔ needle <:+: hay := by
  simp [jsIncludes]

theorem toLowerStr_append (a b : Str) :
    toLowerStr (a ++ b) = toLowerStr a ++ toLowerStr b := by
  simp [toLowerStr]

/-- A chunk passing the `contentMatch` test contains the whole lowercased
query inside the text `calculateTextSimilarity` scans. -/
theorem contentMatch_sub {query : Str} {c : CodeChunk}
    (h : contentMatch (toLowerStr query) c = true) :
    toLowerStr query <:+: chunkTextOf c := by
  have hsplit : chunkTextOf c =
      toLowerStr c.name ++ toLowerStr [' '] ++ toLowerStr c.content ++
        toLowerStr [' '] ++ toLowerStr c.context := by
    simp [chunkTextOf, toLowerStr]
  rcases Bool.or_eq_true _ _ |>.mp h with h' | hctx
  · rcases Bool.or_eq_true _ _ |>.mp h' with hcont | hname
    · have h1 : toLowerStr query <:+: toLowerStr c.content :=
        jsIncludes_eq_true.mp hcont
      rw [hsplit]
      obtain ⟨s, e, hse⟩ := h1
      refine ⟨toLowerStr c.name ++ toLowerStr [' '] ++ s,
              e ++ toLowerStr [' '] ++ toLowerStr c.context, ?_⟩
      rw [← hse]
      simp
    · have h1 : toLowerStr query <:+: toLowerStr c.name :=
        jsIncludes_eq_true.mp hname
      rw [hsplit]
      obtain ⟨s, e, hse⟩ := h1
      refine ⟨s, e ++ toLowerStr [' '] ++ toLowerStr c.content ++
              toLowerStr [' '] ++ toLowerStr c.context, ?_⟩
      rw [← hse]
      simp
  · have h1 : toLowerStr query <:+: toLowerStr c.context :=
      jsIncludes_eq_true.mp hctx
    rw [hsplit]
    obtain ⟨s, e, hse⟩ := h1
    refine ⟨toLowerStr c.name ++ toLowerStr [' '] ++ toLowerStr c.content ++
            toLowerStr [' '] ++ s, e, ?_⟩
    rw [← hse]
    simp

/-- Every query term is a substring of the whole query, so a chunk that
passes `contentMatch` matches every term: its lexical similarity is
exactly 1. -/
theorem sim_eq_one {query : Str} {c : CodeChunk}
    (h : contentMatch (toLowerStr query) c = true) :
    calculateTextSimilarity query c = 1 := by
  have hwhole := contentMatch_sub h
  have hall : ∀ w ∈ splitWS (toLowerStr query),
      jsIncludes (chunkTextOf c) w = true := by
    intro w hw
    exact jsIncludes_eq_true.mpr ((splitWS_mem_sub hw).trans hwhole)
  have hfilter :
      (splitWS (toLowerStr query)).filter (fun w => jsIncludes (chunkTextOf c) w)
        = splitWS (toLowerStr query) :=
    List.filter_eq_self.mpr hall
  have hne : (splitWS (toLowerStr query)).length ≠ 0 :=
    fun hz => splitWS_ne_nil _ (List.eq_nil_of_length_eq_zero hz)
  simp only [calculateTextSimilarity]
  rw [hfilter]
  exact div_self (by exact_mod_cast hne)

/-- Every scored in-memory result passed its chunk through the candidate
filter, hence its similarity is 1 and its type obeys the filter. -/
theorem inMemoryScored_mem {chunks : List CodeChunk} {query : Str}
    {maxResults : Nat} {ct : CodeTypeQ} {r : SemanticSearchResult}
    (h : r ∈ inMemoryScored chunks query maxResults ct) :
    r.similarity = 1 ∧ typeMatches ct r.chunk.type = true := by
  obtain ⟨c, hc, hr⟩ := List.mem_map.mp h
  have hcand : c ∈ inMemoryCandidates chunks query ct :=
    List.take_subset _ _ hc
  have hfil := List.mem_filter.mp hcand
  have hand := Bool.and_eq_true _ _ |>.mp hfil.2
  subst hr
  exact ⟨sim_eq_one hand.2, hand.1⟩

/-- The scenario search `search("add", threshold 0, limit 5)` over the
one-chunk codebase: the `add` chunk is returned with similarity 1. -/
theorem addChunk_shown :
    inMemoryShown [addChunk] (strL "add") 0 5 CodeTypeQ.all
      = [⟨addChunk, 1, addChunk.context⟩] := by
  have hc : inMemoryCandidates [addChunk] (strL "add") CodeTypeQ.all = [addChunk] := by
    decide
  have hsim : calculateTextSimilarity (strL "add") addChunk = 1 :=
    sim_eq_one (by decide)
  simp [inMemoryShown, inMemoryScored, hc, hsim]

/-- A list whose members all equal 1 is sorted descending. -/
theorem allOne_sorted (l : List Rat) (h : ∀ x ∈ l, x = 1) :
    List.Sorted (fun a b => b ≤ a) l := by
  induction l with
  | nil => exact List.sorted_nil
  | cons a t ih =>
    rw [List.sorted_cons]
    refine ⟨fun b hb => ?_, ih fun x hx => h x (List.mem_cons_of_mem _ hx)⟩
    rw [h a (List.mem_cons_self _ _), h b (List.mem_cons_of_mem _ hb)]

/-- C1: For every query, the result list returned by the (lexical
fallback) search is sorted descending by similarity — indeed every
returned entry has similarity exactly 1 — contains at most `max_results`
entries, and every returned entry has `similarity ≥ threshold` and, when
a code-type filter is set, a matching chunk type.  In particular
`search(q, threshold := 0, limit := N)` returns at most `N` results
sorted descending by similarity. -/
theorem spec_c1 (chunks : List CodeChunk) (query : Str) (threshold : Rat)
    (maxResults : Nat) (ct : CodeTypeQ) :
    List.Sorted (fun a b => b ≤ a)
      ((inMemoryShown chunks query threshold maxResults ct).map
        (fun r => r.similarity)) ∧
    (inMemoryShown chunks query threshold maxResults ct).length ≤ maxResults ∧
    ∀ r ∈ inMemoryShown chunks query threshold maxResults ct,
      threshold ≤ r.similarity ∧ r.similarity = 1 ∧
      ∀ k, ct = CodeTypeQ.typed k → r.chunk.type = k := by
  have hmem : ∀ r ∈ inMemoryShown chunks query threshold maxResults ct,
      threshold ≤ r.similarity ∧ r.similarity = 1 ∧
      ∀ k, ct = CodeTypeQ.typed k → r.chunk.type = k := by
    intro r hr
    have hfil := List.mem_filter.mp hr
    have hsc := inMemoryScored_mem hfil.1
    refine ⟨of_decide_eq_true hfil.2, hsc.1, ?_⟩
    intro k hk
    have htm := hsc.2
    rw [hk] at htm
    simp [typeMatches] at htm
    exact htm
  refine ⟨?_, ?_, hmem⟩
  · apply allOne_sorted
    intro x hx
    obtain ⟨r, hr, hrx⟩ := List.mem_map.mp hx
    rw [← hrx]
    exact (hmem r hr).2.1
  · have h1 : (inMemoryShown chunks query threshold maxResults ct).length
        ≤ (inMemoryScored chunks query maxResults ct).length :=
      List.length_filter_le _ _
    have h2 : (inMemoryScored chunks query maxResults ct).length ≤ maxResults := by
      simp [inMemoryScored]
    exact Nat.le_trans h1 h2

/-- C1 witness: the scenario search instantiates the theorem. -/
theorem spec_c1_witness :
    (0 : Rat) ≤ (SemanticSearchResult.mk addChunk 1 addChunk.context).similarity ∧
    (SemanticSearchResult.mk addChunk 1 addChunk.context).similarity = 1 ∧
    ∀ k, CodeTypeQ.all = CodeTypeQ.typed k →
      (SemanticSearchResult.mk addChunk 1 addChunk.context).chunk.type = k :=
  (spec_c1 [addChunk] (strL "add") 0 5 CodeTypeQ.all).2.2 _
    (by rw [addChunk_shown]; exact List.mem_singleton_self _)

/-- C2 counterexample: over the one-chunk `add.js` codebase the lexical
query `"add numbers"` returns nothing, although the chunk contains the
query term `"add"` — candidacy requires the **whole** query as a
substring, not one term, refuting both the claimed candidate condition
and the claimed scenario result. -/
theorem spec_c2_cex :
    jsIncludes (toLowerStr addChunk.content) (strL "add") = true ∧
    strL "add" ∈ splitWS (toLowerStr (strL "add numbers")) ∧
    inMemoryCandidates [addChunk] (strL "add numbers") CodeTypeQ.all = [] ∧
    inMemoryShown [addChunk] (strL "add numbers") 0 5 CodeTypeQ.all = [] := by
  have hc : inMemoryCandidates [addChunk] (strL "add numbers") CodeTypeQ.all = [] := by
    decide
  refine ⟨by decide, by decide, hc, ?_⟩
  simp [inMemoryShown, inMemoryScored, hc]

/-- C2 as amended: a chunk is a candidate iff it passes the type filter
and its content, name, or context contains the **entire** lowercased
query as a substring; every candidate's similarity — the fraction of
query terms found in name+content+context — then equals 1; and the
scenario query `"add"` (a query the chunk does contain verbatim) returns
the `add` chunk with similarity 1 > 0. -/
theorem spec_c2_amended :
    (∀ (chunks : List CodeChunk) (query : Str) (ct : CodeTypeQ) (c : CodeChunk),
      c ∈ inMemoryCandidates chunks query ct ↔
        c ∈ chunks ∧ typeMatches ct c.type = true ∧
          contentMatch (toLowerStr query) c = true) ∧
    (∀ (query : Str) (c : CodeChunk),
      contentMatch (toLowerStr query) c = true →
        calculateTextSimilarity query c = 1) ∧
    inMemoryShown [addChunk] (strL "add") 0 5 CodeTypeQ.all
      = [⟨addChunk, 1, addChunk.context⟩] := by
  refine ⟨?_, fun query c h => sim_eq_one h, addChunk_shown⟩
  intro chunks query ct c
  constructor
  · intro h
    have hfil := List.mem_filter.mp h
    have hand := Bool.and_eq_true _ _ |>.mp hfil.2
    exact ⟨hfil.1, hand.1, hand.2⟩
  · intro ⟨h1, h2, h3⟩
    exact List.mem_filter.mpr ⟨h1, by rw [h2, h3]; rfl⟩

/-- C2 witness: the amended candidate condition and similarity value at
the concrete scenario input. -/
theorem spec_c2_witness :
    addChunk ∈ inMemoryCandidates [addChunk] (strL "add") CodeTypeQ.all ∧
    calculateTextSimilarity (strL "add") addChunk = 1 :=
  ⟨(spec_c2_amended.1 [addChunk] (strL "add") CodeTypeQ.all addChunk).mpr
      ⟨by decide, by decide, by decide⟩,
   spec_c2_amended.2.1 (strL "add") addChunk (by decide)⟩

/-- C10: the lexical similarity score is a rational in `[0, 1]`: the
matched-term count never exceeds the term count, and splitting always
yields at least one term, so the division is well-defined. -/
theorem spec_c10 (query : Str) (chunk : CodeChunk) :
    0 ≤ calculateTextSimilarity query chunk ∧
    calculateTextSimilarity query chunk ≤ 1 ∧
    1 ≤ (splitWS (toLowerStr query)).length ∧
    ((splitWS (toLowerStr query)).filter
        (fun word => jsIncludes (chunkTextOf chunk) word)).length ≤
      (splitWS (toLowerStr query)).length := by
  have hlen : 0 < (splitWS (toLowerStr query)).length :=
    List.length_pos.mpr (splitWS_ne_nil _)
  have hle := List.length_filter_le
    (fun word => jsIncludes (chunkTextOf chunk) word) (splitWS (toLowerStr query))
  refine ⟨?_, ?_, hlen, hle⟩
  · simp only [calculateTextSimilarity]
    positivity
  · simp only [calculateTextSimilarity]
    rw [div_le_one (by exact_mod_cast hlen)]
    exact_mod_cast hle

/-! ## Complexity: the visitor counter equals the subtree occurrence count -/

mutual
/-- The threaded complexity counter over a node equals the start value
plus the number of branch-point nodes among the node and its descendants. -/
theorem complexityVisit_eq : ∀ (n : BNode) (acc : Nat),
    complexityVisit n acc =
      acc + ((n :: descendants n).filter (fun d => isComplexityNode d.kind)).length
  | .node k i cs, acc => by
    rw [complexityVisit]
    rw [complexityVisitList_eq cs]
    simp only [descendants, BNode.kind, List.filter_cons]
    by_cases h : isComplexityNode k
    · simp [h]
      omega
    · simp [h]

/-- The threaded complexity counter over a forest equals the start value
plus the number of branch-point nodes in the forest. -/
theorem complexityVisitList_eq : ∀ (cs : List BNode) (acc : Nat),
    complexityVisitList cs acc =
      acc + ((descendantsList cs).filter (fun d => isComplexityNode d.kind)).length
  | [], acc => by
    rw [complexityVisitList]
    simp [descendantsList]
  | c :: cs, acc => by
    rw [complexityVisitList]
    rw [complexityVisitList_eq cs]
    rw [complexityVisit_eq c]
    have hd : descendantsList (c :: cs) = (c :: descendants c) ++ descendantsList cs := by
      rw [descendantsList]
    rw [hd, List.filter_append, List.length_append]
    omega
end

/-- C4: for every node, the computed complexity is exactly 1 (base) plus
the number of `if`/`while`/`for`/`switch-case`/`catch`/ternary nodes and
short-circuit (`&&`/`||`) logical operator occurrences in its subtree
(the proper descendants `path.traverse` visits; the nodes the analyzer
scores — functions — are never branch points themselves), hence an
integer ≥ 1; and the single function node of
`function add(a, b) { return a + b; }` has complexity 1. -/
theorem spec_c4 :
    (∀ n : BNode,
      calculateASTComplexity n =
        1 + ((descendants n).filter (fun d => isComplexityNode d.kind)).length ∧
      1 ≤ calculateASTComplexity n) ∧
    calculateASTComplexity addFuncNode = 1 := by
  have hmain : ∀ n : BNode, calculateASTComplexity n =
      1 + ((descendants n).filter (fun d => isComplexityNode d.kind)).length := by
    intro n
    match n with
    | .node k i cs =>
      rw [calculateASTComplexity]
      rw [complexityVisitList_eq cs]
      simp [descendants]
  refine ⟨fun n => ⟨hmain n, ?_⟩, by decide⟩
  rw [hmain n]
  omega

/-! ## Parse-failure isolation -/

theorem entriesChunkData_append :
    ∀ (l₁ l₂ : List FSEntry) (d : Nat),
      entriesChunkData (l₁ ++ l₂) d = entriesChunkData l₁ d ++ entriesChunkData l₂ d := by
  intro l₁
  induction l₁ with
  | nil => intro l₂ d; simp [entriesChunkData]
  | cons e rest ih =>
    intro l₂ d
    simp [entriesChunkData, ih]

/-- C5: a file whose parse fails is recovered per-file — it contributes
no chunks and no exception escapes (the model is total by construction) —
and its presence in a directory leaves every other file's chunk
contribution unchanged. -/
theorem spec_c5 (pre post : List FSEntry) (f : SourceFile) (d : Nat) (msg : Str)
    (hf : f.parsed = Except.error msg) :
    parseFileAST f = [] ∧
    parseDirectoryAST (pre ++ FSEntry.file f :: post) d
      = parseDirectoryAST (pre ++ post) d := by
  have hfile : fileChunkData f = [] := by
    unfold fileChunkData
    split
    · rfl
    · split
      · rfl
      · simp [hf]
  constructor
  · simp [parseFileAST, hfile]
  · unfold parseDirectoryAST
    congr 1
    unfold dirChunkData
    split
    · rfl
    · have hmid : FSEntry.file f :: post = [FSEntry.file f] ++ post := rfl
      rw [hmid, entriesChunkData_append, entriesChunkData_append,
          entriesChunkData_append]
      simp [entriesChunkData, entryChunkData, hfile]

/-- A malformed file: Babel throws, the analyzer logs and skips. -/
def badFile : SourceFile :=
  { relPath := strL "bad.js", ext := strL ".js", contentLength := 11
  , lines := [strL "function ()"]
  , parsed := Except.error (strL "Unexpected token (1:9)") }

/-- C5 witness: next to `add.js`, the malformed `bad.js` contributes
nothing and does not reduce `add.js`'s contribution. -/
theorem spec_c5_witness :
    parseFileAST badFile = [] ∧
    parseDirectoryAST [FSEntry.file addFile, FSEntry.file badFile] 0
      = parseDirectoryAST [FSEntry.file addFile] 0 :=
  spec_c5 [FSEntry.file addFile] [] badFile 0 (strL "Unexpected token (1:9)") rfl

/-! ## Chunk identity and re-indexing -/

/-- The embedding pipeline touches only the `embedding` field. -/
theorem generateEmbeddings_fields {apiKey : Option Str}
    {er : Str → Option (List Rat)} {chunks : List CodeChunk} {c : CodeChunk}
    (hc : c ∈ generateEmbeddings apiKey er chunks) :
    ∃ c₀ ∈ chunks, c.id = c₀.id ∧ c.file = c₀.file ∧ c.line = c₀.line ∧
      c.name = c₀.name := by
  match apiKey with
  | none =>
    exact ⟨c, by simpa [generateEmbeddings] using hc, rfl, rfl, rfl, rfl⟩
  | some k =>
    obtain ⟨c₀, hc₀, hceq⟩ := List.mem_map.mp hc
    refine ⟨c₀, hc₀, ?_, ?_, ?_, ?_⟩ <;>
      (rw [← hceq]; cases er (createEmbeddingText c₀) <;> rfl)

/-- C3: every chunk of a fresh index carries the deterministic id
`file:line:name`, and re-running `analyzeCodebaseAST` on the same
(unchanged) target replaces the chunk set with an identical one — the
id sets of consecutive re-index runs coincide. -/
theorem spec_c3 (s : AnalyzerState) (p : Str) (entries : List FSEntry)
    (apiKey : Option Str) (embedResp : Str → Option (List Rat)) :
    (∀ c ∈ ((analyzeCodebaseAST s p (.directory entries) apiKey embedResp).2).codeChunks,
      c.id = c.file ++ strL ":" ++ natStr c.line ++ strL ":" ++ c.name) ∧
    (∀ tgt : PathTarget,
      ((analyzeCodebaseAST ((analyzeCodebaseAST s p tgt apiKey embedResp).2) p tgt
          apiKey embedResp).2).codeChunks.map (fun c => c.id)
        = ((analyzeCodebaseAST s p tgt apiKey embedResp).2).codeChunks.map
            (fun c => c.id)) := by
  constructor
  · intro c hc
    simp only [analyzeCodebaseAST] at hc
    obtain ⟨c₀, hc₀, hid, hfile, hline, hname⟩ := generateEmbeddings_fields hc
    obtain ⟨d, _, hd⟩ := List.mem_map.mp
      (by simpa [parseDirectoryAST] using hc₀)
    rw [hid, hfile, hline, hname, ← hd]
    rfl
  · intro tgt
    cases tgt <;> rfl

/-- C3 witness: the one chunk of the scenario index has id
`add.js:1:add`, i.e. file, line and name joined. -/
theorem spec_c3_witness :
    addChunk.id = addChunk.file ++ strL ":" ++ natStr addChunk.line ++
      strL ":" ++ addChunk.name ∧
    addChunk.id = strL "add.js:1:add" := by
  constructor
  · exact (spec_c3 ⟨none, []⟩ (strL "/proj") [FSEntry.file addFile] none
      (fun _ => none)).1 addChunk (by decide)
  · decide

/-- C7: analyzing a nonexistent or non-directory path throws before any
state is touched: the call reports an error and the previously indexed
chunk set and current path are exactly as before. -/
theorem spec_c7 (s : AnalyzerState) (p : Str) (apiKey : Option Str)
    (er : Str → Option (List Rat)) (tgt : PathTarget)
    (h : tgt = PathTarget.missing ∨ tgt = PathTarget.notDirectory) :
    (∃ msg, (analyzeCodebaseAST s p tgt apiKey er).1 = Except.error msg) ∧
    (analyzeCodebaseAST s p tgt apiKey er).2 = s := by
  rcases h with h | h <;> subst h <;> exact ⟨⟨_, rfl⟩, rfl⟩

/-- C7 witness: a failed call on a missing path leaves an existing index
(current path `/old`, one chunk) unchanged. -/
theorem spec_c7_witness :
    (∃ msg, (analyzeCodebaseAST ⟨some (strL "/old"), [addChunk]⟩ (strL "/missing")
        PathTarget.missing none (fun _ => none)).1 = Except.error msg) ∧
    (analyzeCodebaseAST ⟨some (strL "/old"), [addChunk]⟩ (strL "/missing")
        PathTarget.missing none (fun _ => none)).2
      = ⟨some (strL "/old"), [addChunk]⟩ :=
  spec_c7 ⟨some (strL "/old"), [addChunk]⟩ (strL "/missing") none (fun _ => none)
    PathTarget.missing (Or.inl rfl)

/-! ## Degraded (lexical-only) mode -/

/-- C6: with no API key the embedding pipeline is a no-op, a fresh index
has embedded count 0, every search call falls back to the in-memory
lexical backend, and a query matching a chunk's content verbatim still
returns a non-empty result list. -/
theorem spec_c6 :
    (∀ (er : Str → Option (List Rat)) (chunks : List CodeChunk),
      generateEmbeddings none er chunks = chunks) ∧
    (∀ (s : AnalyzerState) (p : Str) (entries : List FSEntry)
        (er : Str → Option (List Rat)),
      (((analyzeCodebaseAST s p (.directory entries) none er).2).codeChunks.filter
          (fun c => c.embedding.isSome)).length = 0) ∧
    (∀ (st : ToolState) (qok : Bool) (rows : Option (List VRow)) (q : Str)
        (thr : Rat) (maxR : Nat) (ct : CodeTypeQ),
      st.apiKey = none →
      performSemanticSearchT st qok rows q thr maxR ct
        = ((if st.vectorInitialized then [Effect.queryEmbedRequest] else []),
           performInMemorySearch st.codeChunks q thr maxR ct)) ∧
    (∀ (chunks : List CodeChunk) (c : CodeChunk) (thr : Rat) (maxR : Nat),
      c ∈ chunks → thr ≤ 1 → 1 ≤ maxR →
      inMemoryShown chunks c.content thr maxR CodeTypeQ.all ≠ []) := by
  refine ⟨fun er chunks => rfl, ?_, ?_, ?_⟩
  · intro s p entries er
    simp only [analyzeCodebaseAST, generateEmbeddings]
    rw [List.length_eq_zero, List.filter_eq_nil_iff]
    intro c hc
    obtain ⟨d, _, hd⟩ := List.mem_map.mp (by simpa [parseDirectoryAST] using hc)
    rw [← hd]
    simp [addCodeChunk]
  · intro st qok rows q thr maxR ct h
    cases hv : st.vectorInitialized <;>
      simp [performSemanticSearchT, h, hv]
  · intro chunks c thr maxR hc hthr hmax
    have hself : jsIncludes (toLowerStr c.content) (toLowerStr c.content) = true :=
      jsIncludes_eq_true.mpr (List.infix_refl _)
    have hcand : c ∈ inMemoryCandidates chunks c.content CodeTypeQ.all :=
      List.mem_filter.mpr ⟨hc, by simp [typeMatches, contentMatch, hself]⟩
    have hne : inMemoryCandidates chunks c.content CodeTypeQ.all ≠ [] := by
      intro h
      rw [h] at hcand
      exact absurd hcand (List.not_mem_nil _)
    obtain ⟨c₀, cs₀, hcons⟩ := List.exists_cons_of_ne_nil hne
    have hc₀ : c₀ ∈ inMemoryCandidates chunks c.content CodeTypeQ.all := by
      rw [hcons]; exact List.mem_cons_self _ _
    have hsim : calculateTextSimilarity c.content c₀ = 1 :=
      sim_eq_one (Bool.and_eq_true _ _ |>.mp (List.mem_filter.mp hc₀).2).2
    match maxR, hmax with
    | Nat.succ m, _ =>
      have hr : (⟨c₀, calculateTextSimilarity c.content c₀, c₀.context⟩ :
          SemanticSearchResult) ∈ inMemoryScored chunks c.content (m + 1) CodeTypeQ.all := by
        simp only [inMemoryScored, hcons, List.take_succ_cons]
        exact List.mem_map_of_mem _ (List.mem_cons_self _ _)
      have hmem : (⟨c₀, calculateTextSimilarity c.content c₀, c₀.context⟩ :
          SemanticSearchResult) ∈
            inMemoryShown chunks c.content thr (m + 1) CodeTypeQ.all := by
        apply List.mem_filter.mpr
        refine ⟨hr, ?_⟩
        apply decide_eq_true
        rw [hsim]
        exact hthr
      intro hshown
      rw [hshown] at hmem
      exact absurd hmem (List.not_mem_nil _)

/-- C6 witness: the no-op pipeline and a verbatim-content query over the
scenario codebase. -/
theorem spec_c6_witness :
    generateEmbeddings none (fun _ => none) [addChunk] = [addChunk] ∧
    inMemoryShown [addChunk] addChunk.content 0 5 CodeTypeQ.all ≠ [] :=
  ⟨spec_c6.1 (fun _ => none) [addChunk],
   spec_c6.2.2.2 [addChunk] addChunk 0 5 (List.mem_singleton_self _)
     (by norm_num) (by norm_num)⟩

/-- C9: a search before any analysis (empty chunk set, lexical backend)
raises no error and returns the normally formatted header with zero
match entries. -/
theorem spec_c9 (st : ToolState) (qok : Bool) (rows : Option (List VRow))
    (q : Str) (thr : Rat) (maxR : Nat) (ct : CodeTypeQ)
    (hchunks : st.codeChunks = []) (hvec : st.vectorInitialized = false) :
    performSemanticSearchT st qok rows q thr maxR ct
      = ([], [strL "🔍 In-Memory Search Results:", strL ""]) ∧
    inMemoryShown st.codeChunks q thr maxR ct = [] := by
  constructor
  · simp [performSemanticSearchT, hvec, hchunks, performInMemorySearch,
      inMemoryScored, inMemoryCandidates, formatInMemorySearchResults]
  · simp [inMemoryShown, inMemoryScored, inMemoryCandidates, hchunks]

/-- C9 witness: the fresh tool state (ChromaDB unreachable, nothing
analyzed) at a concrete query. -/
theorem spec_c9_witness :
    performSemanticSearchT ⟨true, false, false, none, [], none⟩ true none
        (strL "add") (7 / 10) 10 CodeTypeQ.all
      = ([], [strL "🔍 In-Memory Search Results:", strL ""]) ∧
    inMemoryShown ([] : List CodeChunk) (strL "add") (7 / 10) 10 CodeTypeQ.all = [] :=
  spec_c9 ⟨true, false, false, none, [], none⟩ true none (strL "add") (7 / 10) 10
    CodeTypeQ.all rfl rfl

/-! ## Empty-query handling in `_run` -/

theorem mem_ite_nil {α : Type} {c : Prop} [Decidable c] {l : List α} {x : α}
    (h : x ∈ (if c then l else [])) : x ∈ l := by
  split at h
  · exact h
  · exact absurd h (List.not_mem_nil _)

/-- With a falsy query, each of the four query-taking operations returns
its `Error: ...` message from the `switch` without running its handler:
no effects, fixed message. -/
theorem runOperation_emptyQuery {inp : RunInput}
    (hop : inp.operation = Operation.semantic_search ∨
      inp.operation = Operation.explain_semantic ∨
      inp.operation = Operation.find_similar ∨
      inp.operation = Operation.intelligent_query)
    (hq : truthyStr inp.query = none) :
    ∃ m, ∀ (st : ToolState) (qok : Bool) (rows : Option (List VRow)),
      runOperation st qok rows inp = ([], RunOutcome.errorMsg m) := by
  rcases hop with h | h | h | h
  · exact ⟨strL "Error: Query is required for semantic search",
      fun st qok rows => by simp [runOperation, h, hq]⟩
  · exact ⟨strL "Error: Question is required for semantic explanation",
      fun st qok rows => by simp [runOperation, h, hq]⟩
  · exact ⟨strL "Error: Code snippet is required to find similar code",
      fun st qok rows => by simp [runOperation, h, hq]⟩
  · exact ⟨strL "Error: Query is required for intelligent analysis",
      fun st qok rows => by simp [runOperation, h, hq]⟩


/-- With a falsy query on one of the four query-taking operations,
`runToolCore` adds only initialization/indexing effects (never a
query-embedding request, vector-store query, or language-model call) and
— when any supplied path is a valid directory — outputs the operation's
`InvalidQuery` error message. -/
theorem runToolCore_emptyQuery (e0 : List Effect) (s1 : ToolState)
    (targetOf : Str → PathTarget) (er : Str → Option (List Rat)) (qok : Bool)
    (rows : Option (List VRow)) (inp : RunInput)
    (hop : inp.operation = Operation.semantic_search ∨
      inp.operation = Operation.explain_semantic ∨
      inp.operation = Operation.find_similar ∨
      inp.operation = Operation.intelligent_query)
    (hq : truthyStr inp.query = none) :
    (∀ e ∈ (runToolCore e0 s1 targetOf er qok rows inp).1,
      e ∈ e0 ∨ e = Effect.embedRequest ∨ e = Effect.vectorStoreAdd) ∧
    ((∀ p, truthyStr inp.path = some p →
        ∃ entries, targetOf p = PathTarget.directory entries) →
      ∃ m, (runToolCore e0 s1 targetOf er qok rows inp).2
        = RunOutcome.errorMsg m) := by
  obtain ⟨m, hm⟩ := runOperation_emptyQuery hop hq
  rcases htp : truthyStr inp.path with _ | p
  · have hrun : runToolCore e0 s1 targetOf er qok rows inp
        = (e0 ++ [], RunOutcome.errorMsg m) := by
      simp only [runToolCore]
      rw [htp]
      simp [hm]
    rw [hrun]
    constructor
    · intro e hmem
      simp only [List.append_nil] at hmem
      exact Or.inl hmem
    · exact fun _ => ⟨m, rfl⟩
  · by_cases hre : inp.operation = Operation.analyze_ast ∨ s1.currentPath ≠ some p
    · rcases htgt : targetOf p with _ | _ | entries
      · have hrun : runToolCore e0 s1 targetOf er qok rows inp
            = (e0, RunOutcome.thrown (strL "Path does not exist: " ++ p)) := by
          simp only [runToolCore]
          rw [htp]
          simp only [if_pos hre]
          rw [htgt]
        rw [hrun]
        refine ⟨fun e hmem => Or.inl hmem, fun hvalid => ?_⟩
        obtain ⟨entries, htgt2⟩ := hvalid p rfl
        rw [htgt] at htgt2
        exact absurd htgt2 (by simp)
      · have hrun : runToolCore e0 s1 targetOf er qok rows inp
            = (e0, RunOutcome.thrown (strL "Path is not a directory: " ++ p)) := by
          simp only [runToolCore]
          rw [htp]
          simp only [if_pos hre]
          rw [htgt]
        rw [hrun]
        refine ⟨fun e hmem => Or.inl hmem, fun hvalid => ?_⟩
        obtain ⟨entries, htgt2⟩ := hvalid p rfl
        rw [htgt] at htgt2
        exact absurd htgt2 (by simp)
      · have hrun : runToolCore e0 s1 targetOf er qok rows inp
            = (e0 ++
                ((match s1.apiKey with
                  | none => ([] : List Effect)
                  | some _ => (parseDirectoryAST entries 0).map
                      (fun _ => Effect.embedRequest)) ++
                 (if s1.vectorInitialized ∧
                     0 < ((generateEmbeddings s1.apiKey er
                            (parseDirectoryAST entries 0)).filter
                          (fun c => c.embedding.isSome)).length
                  then [Effect.vectorStoreAdd] else [])) ++ [],
               RunOutcome.errorMsg m) := by
          simp only [runToolCore]
          rw [htp]
          simp only [if_pos hre]
          rw [htgt]
          simp [hm]
        rw [hrun]
        constructor
        · intro e hmem
          simp only [List.append_nil] at hmem
          rcases List.mem_append.mp hmem with h1 | h2
          · exact Or.inl h1
          · rcases List.mem_append.mp h2 with h3 | h4
            · right; left
              rcases hk : s1.apiKey with _ | k
              · rw [hk] at h3
                exact absurd h3 (List.not_mem_nil _)
              · rw [hk] at h3
                obtain ⟨_, _, hback⟩ := List.mem_map.mp h3
                exact hback.symm
            · right; right
              have := mem_ite_nil h4
              simpa using this
        · exact fun _ => ⟨m, rfl⟩
    · have hrun : runToolCore e0 s1 targetOf er qok rows inp
          = (e0 ++ [], RunOutcome.errorMsg m) := by
        simp only [runToolCore]
        rw [htp]
        simp only [if_neg hre]
        simp [hm]
      rw [hrun]
      constructor
      · intro e hmem
        simp only [List.append_nil] at hmem
        exact Or.inl hmem
      · exact fun _ => ⟨m, rfl⟩

/-- C8 as amended: an empty (or missing) query on the four query-taking
operations is surfaced as an error before the operation's own backend
work — the invocation makes no query-embedding request, no vector-store
query, and no language-model call — and, provided any supplied path is a
valid directory (otherwise the path error is thrown first), the output
is the operation's `InvalidQuery` error message.  Unlike the original
claim, vector-database initialization and, when a new path is supplied,
full re-indexing with its per-chunk embedding requests and vector-store
add may still run before the error is surfaced; see the counterexample. -/
theorem spec_c8_amended (s : ToolState) (targetOf : Str → PathTarget)
    (er : Str → Option (List Rat)) (qok : Bool) (rows : Option (List VRow))
    (inp : RunInput)
    (hop : inp.operation = Operation.semantic_search ∨
      inp.operation = Operation.explain_semantic ∨
      inp.operation = Operation.find_similar ∨
      inp.operation = Operation.intelligent_query)
    (hq : truthyStr inp.query = none) :
    (Effect.queryEmbedRequest ∉ (runTool s targetOf er qok rows inp).1 ∧
     Effect.vectorStoreQuery ∉ (runTool s targetOf er qok rows inp).1 ∧
     Effect.llmRequest ∉ (runTool s targetOf er qok rows inp).1) ∧
    ((∀ p, truthyStr inp.path = some p →
        ∃ entries, targetOf p = PathTarget.directory entries) →
      ∃ m, (runTool s targetOf er qok rows inp).2 = RunOutcome.errorMsg m) := by
  by_cases hcs : s.chromaClientSet
  · have hrt : runTool s targetOf er qok rows inp
        = runToolCore [] s targetOf er qok rows inp := by
      simp [runTool, hcs]
    obtain ⟨heff, hout⟩ := runToolCore_emptyQuery [] s targetOf er qok rows inp hop hq
    rw [hrt]
    refine ⟨⟨?_, ?_, ?_⟩, hout⟩ <;>
      (intro hmem; rcases heff _ hmem with h | h | h <;> simp at h)
  · have hrt : runTool s targetOf er qok rows inp
        = runToolCore [Effect.vectorStoreInit]
            { s with chromaClientSet := true,
                     vectorInitialized := s.chromaReachable }
            targetOf er qok rows inp := by
      simp [runTool, hcs]
    obtain ⟨heff, hout⟩ := runToolCore_emptyQuery [Effect.vectorStoreInit]
      { s with chromaClientSet := true, vectorInitialized := s.chromaReachable }
      targetOf er qok rows inp hop hq
    rw [hrt]
    refine ⟨⟨?_, ?_, ?_⟩, hout⟩ <;>
      (intro hmem; rcases heff _ hmem with h | h | h <;> simp at h)

/-- A fresh tool instance: ChromaDB not yet initialized but reachable,
nothing analyzed, an API key configured. -/
def cexState : ToolState :=
  ⟨false, true, false, none, [], some (strL "key")⟩

/-- A `semantic_search` invocation with a new path and an empty query. -/
def cexInput : RunInput :=
  ⟨Operation.semantic_search, some (strL "/proj"), some [], none, none, none, none⟩

/-- The file system for the counterexample: `/proj` holds `add.js`. -/
def cexTarget : Str → PathTarget := fun _ => PathTarget.directory [FSEntry.file addFile]

/-- The embedding endpoint for the counterexample: every request succeeds. -/
def cexEmbed : Str → Option (List Rat) := fun _ => some [1]

/-- C8 counterexample: on a fresh instance, `semantic_search` with an
empty query and a new path surfaces the `InvalidQuery` error **after**
backend calls have already been made on that invocation — the ChromaDB
`getOrCreateCollection` call, a per-chunk embedding request, and the
vector-store `add` — refuting "surfaced before any backend call". -/
theorem spec_c8_cex :
    (runTool cexState cexTarget cexEmbed true none cexInput).2
      = RunOutcome.errorMsg (strL "Error: Query is required for semantic search") ∧
    Effect.vectorStoreInit ∈ (runTool cexState cexTarget cexEmbed true none cexInput).1 ∧
    Effect.embedRequest ∈ (runTool cexState cexTarget cexEmbed true none cexInput).1 ∧
    Effect.vectorStoreAdd ∈ (runTool cexState cexTarget cexEmbed true none cexInput).1 := by
  decide

/-- C8 witness: the amended theorem applied to the counterexample's
invocation. -/
theorem spec_c8_witness :
    Effect.queryEmbedRequest ∉ (runTool cexState cexTarget cexEmbed true none cexInput).1 ∧
    ∃ m, (runTool cexState cexTarget cexEmbed true none cexInput).2
      = RunOutcome.errorMsg m := by
  have h := spec_c8_amended cexState cexTarget cexEmbed true none cexInput
    (Or.inl rfl) rfl
  exact ⟨h.1.1, h.2 (fun p hp => ⟨[FSEntry.file addFile], rfl⟩)⟩
